import Mathlib

/-!
Verification development for the figure manager of the RayTracing repository
(src/raytracing/figureManager.py).

The Python code is shallowly embedded: containers become Lean lists, Python
floats become exact rationals (with an explicit `Option ℚ` encoding where the
code genuinely manipulates positive infinity), and object mutation becomes
explicit state passing.  Each definition mirrors one function or method of the
source file; the theorems at the end settle the specification claims.
-/

namespace RayTracingFig

/-! ## Traced rays and plot lines (Figure.rayTraceLines and helpers) -/

/-- One sample of a traced ray, as consumed by
`Figure.rearrangeRayTraceForPlotting`: the axial position `z`, the transverse
height `y`, and the `isBlocked` flag set by the (external) tracer. -/
structure TracedRay where
  z : ℚ
  y : ℚ
  isBlocked : Bool
deriving DecidableEq

/-- A plot line as built by `Figure.rayTraceLines` (graphics.Line is external;
only the fields the figure manager sets are modelled). -/
structure Line where
  xData : List ℚ
  yData : List ℚ
  color : String
  lineWidth : ℚ
  label : String
deriving DecidableEq

/-- Helper for `rearrangeRayTraceForPlotting`: the Python loop either filters
the blocked samples out, or aborts the whole function with `[], []` when
`removeBlockedRaysCompletely` is set and a blocked sample is met.  The abort is
encoded as `none`. -/
def rearrangeAux (remove : Bool) : List TracedRay → Option (List ℚ × List ℚ)
  | [] => some ([], [])
  | r :: rs =>
    if r.isBlocked = false then
      match rearrangeAux remove rs with
      | none => none
      | some (x, y) => some (r.z :: x, r.y :: y)
    else if remove then none
    else rearrangeAux remove rs

/-- Embedding of `Figure.rearrangeRayTraceForPlotting` (figureManager.py,
lines 323-340): collect `z`/`y` of the unblocked samples; if
`removeBlockedRaysCompletely` is set, a blocked sample makes the whole result
`([], [])`. -/
def rearrangeRayTraceForPlotting (remove : Bool) (rayList : List TracedRay) :
    List ℚ × List ℚ :=
  (rearrangeAux remove rayList).getD ([], [])

/-- Python `int()` applied to a rational: truncation toward zero. -/
def pyTrunc (q : ℚ) : ℤ :=
  if 0 ≤ q then ⌊q⌋ else ⌈q⌉

/-- Embedding of the colour-bucket computation of `Figure.rayTraceLines`
(figureManager.py, lines 309-316): `n` is `len(color)`,
`maxStartingHeight` is the fan half height and `rayInitialHeight` is `y[0]`.
The Python `int()` cast truncates toward zero and the result is clamped into
`[0, n-1]`. -/
def colorIndexOf (n : ℕ) (maxStartingHeight rayInitialHeight : ℚ) : ℕ :=
  let binSize := 2 * maxStartingHeight / ((n : ℚ) - 1)
  let raw := pyTrunc ((rayInitialHeight - (-maxStartingHeight - binSize / 2)) / binSize)
  if raw < 0 then 0
  else if (n : ℤ) ≤ raw then n - 1
  else raw.toNat

/-- Embedding of the per-trace body of `Figure.rayTraceLines` (figureManager.py,
lines 301-319): rearrange the trace, skip it entirely when no sample remains
(`none`), otherwise build the `Line` with the colour bucket chosen from the
first remaining height. -/
def lineOfRayTrace (remove : Bool) (colors : List String) (halfHeight lw : ℚ)
    (rayTrace : List TracedRay) : Option Line :=
  let xy := rearrangeRayTraceForPlotting remove rayTrace
  match xy.2 with
  | [] => none
  | y0 :: _ =>
    some { xData := xy.1, yData := xy.2,
           color := colors.getD (colorIndexOf colors.length halfHeight y0) "",
           lineWidth := lw, label := "ray" }

/-- Embedding of the loop of `Figure.rayTraceLines` over the traced bundles:
only traces with remaining samples produce lines. -/
def rayTraceLines (remove : Bool) (colors : List String) (halfHeight lw : ℚ)
    (manyRayTraces : List (List TracedRay)) : List Line :=
  manyRayTraces.filterMap (lineOfRayTrace remove colors halfHeight lw)

/-! ## Imaging display range (Figure.imagingDisplayRange) -/

/-- Inputs of `Figure.imagingDisplayRange`: the `halfHeight` of each element
graphic (`none` encodes the Python float `+inf`), the path's `_objectHeight`,
the intermediate conjugates `(planePosition, magnification)` and the total
system length `L`.  All queries are read-only calls into the (external)
optical-path model. -/
structure ImagingPath where
  halfHeights : List (Option ℚ)
  objectHeight : ℚ
  conjugates : List (ℚ × ℚ)
  L : ℚ
deriving DecidableEq

/-- Python float `halfHeight * 2` on the `Option ℚ` encoding of `[0, +inf]`. -/
def qinfDouble : Option ℚ → Option ℚ
  | none => none
  | some a => some (2 * a)

/-- Python float `>` on the `Option ℚ` encoding (`none` is `+inf`;
`inf > inf` is false). -/
def qinfGT : Option ℚ → Option ℚ → Bool
  | none, none => false
  | none, some _ => true
  | some _, none => false
  | some a, some b => decide (b < a)

/-- One iteration of the first loop of `Figure.imagingDisplayRange`
(figureManager.py, lines 239-241): keep the larger of the running range and
`graphic.halfHeight * 2`. -/
def extentStep (d h : Option ℚ) : Option ℚ :=
  if qinfGT (qinfDouble h) d then qinfDouble h else d

/-- First loop of `Figure.imagingDisplayRange` (figureManager.py, lines
238-241): running maximum of `graphic.halfHeight * 2`, starting at `0`. -/
def maxElementExtent (halfHeights : List (Option ℚ)) : Option ℚ :=
  halfHeights.foldl extentStep (some 0)

/-- A lower bound on an extended rational (`none` is `+inf`). -/
def qinfAtLeast (d : Option ℚ) (a : ℚ) : Prop :=
  match d with
  | none => True
  | some b => a ≤ b

/-- One iteration of the conjugate loop of `Figure.imagingDisplayRange`
(figureManager.py, lines 248-253): in-range conjugates raise the running range
to `objectHeight * abs magnification`. -/
def conjStep (objectHeight L : ℚ) (d : ℚ) (pm : ℚ × ℚ) : ℚ :=
  if 0 ≤ pm.1 ∧ pm.1 ≤ L then
    if d < objectHeight * |pm.2| then objectHeight * |pm.2| else d
  else d

/-- Embedding of `Figure.imagingDisplayRange` (figureManager.py, lines
236-255): maximum element extent, replaced by `_objectHeight` when infinite or
not larger, then raised by every in-range intermediate conjugate. -/
def imagingDisplayRange (p : ImagingPath) : ℚ :=
  let d1 : ℚ :=
    match maxElementExtent p.halfHeights with
    | none => p.objectHeight
    | some a => if a ≤ p.objectHeight then p.objectHeight else a
  p.conjugates.foldl (conjStep p.objectHeight p.L) d1

/-! ## Points of interest (Figure.pointsOfInterest) -/

/-- An annotated point as built by `Figure.pointsOfInterest` (graphics.Point is
external; the constructor arguments used by the figure manager are modelled). -/
structure Point where
  text : String
  x : ℚ
  y : ℚ
deriving DecidableEq

/-- Round half to even (the rounding used when Python formats a float with
three decimals, on exact values). -/
def roundHalfEven (q : ℚ) : ℤ :=
  if q - ⌊q⌋ < 1/2 then ⌊q⌋
  else if 1/2 < q - ⌊q⌋ then ⌊q⌋ + 1
  else if ⌊q⌋ % 2 = 0 then ⌊q⌋ else ⌊q⌋ + 1

/-- Dictionary key produced by the Python expression
`"{0:3.3f}".format(z)` in `Figure.pointsOfInterest`: the value rounded to
three decimals (scaled to an integer) together with the sign of the formatted
float, which distinguishes the strings printed as negative zero. -/
def poiKey (z : ℚ) : ℤ × Bool :=
  (roundHalfEven (z * 1000), decide (z < 0))

/-- Numeric value of the key string read back by `float(zStr)` in
`Figure.pointsOfInterest` (negative zero compares equal to zero). -/
def poiKeyX (k : ℤ × Bool) : ℚ :=
  (k.1 : ℚ) / 1000

/-- Dictionary update of `Figure.pointsOfInterest` (figureManager.py, lines
183-201): labels at an existing key are comma-joined onto it, new keys are
appended in insertion order. -/
def insertPoi (acc : List ((ℤ × Bool) × String)) (z : ℚ) (label : String) :
    List ((ℤ × Bool) × String) :=
  if (acc.map Prod.fst).contains (poiKey z) then
    acc.map fun kl => if kl.1 = poiKey z then (kl.1, kl.2 ++ ", " ++ label) else kl
  else acc ++ [(poiKey z, label)]

/-- Embedding of `Figure.pointsOfInterest` (figureManager.py, lines 173-208).
`pts` is the concatenation, in source order, of the path-level points of
interest and the per-element ones (both produced by the external path model);
`halfHeight` is `largestDiameter / 2`.  Coincident keys are merged and each
resulting point is placed at the key value, at `-halfHeight * 0.5`. -/
def pointsOfInterestAgg (pts : List (ℚ × String)) (halfHeight : ℚ) : List Point :=
  (pts.foldl (fun acc zl => insertPoi acc zl.1 zl.2) []).map
    fun kl => { text := kl.2, x := poiKeyX kl.1, y := -halfHeight * (1/2) }

/-! ## Design parameters (Figure.__init__ and Figure.design) -/

/-- One style dictionary of `Figure.styles` (figureManager.py, lines 22-28). -/
structure DesignParams where
  rayColors : List String
  onlyAxialRay : Bool
  imageColor : String
  objectColor : String
  onlyPrincipalAndAxialRays : Bool
  limitObjectToFieldOfView : Bool
  removeBlockedRaysCompletely : Bool
deriving DecidableEq

/-- The three keys of `Figure.styles`. -/
inductive StyleName
  | defaultStyle
  | publication
  | presentation
deriving DecidableEq

/-- Style state of a `Figure`: the three stored style dictionaries, and which
of them `self.designParams` currently aliases.  In the source
`self.designParams` is only ever assigned `self.styles[style]`, so the alias is
always one of the stored dictionaries and item writes on it mutate that stored
dictionary. -/
structure FigState where
  defaultStyle : DesignParams
  publication : DesignParams
  presentation : DesignParams
  active : StyleName
deriving DecidableEq

/-- The `styles['default']` dictionary built in `Figure.__init__`. -/
def defaultDesign : DesignParams :=
  { rayColors := ["b", "r", "g"], onlyAxialRay := false,
    imageColor := "r", objectColor := "b", onlyPrincipalAndAxialRays := true,
    limitObjectToFieldOfView := true, removeBlockedRaysCompletely := false }

/-- Embedding of `Figure.__init__` (figureManager.py, lines 21-30):
`publication` and `presentation` are copies of `default`, `publication` is
then updated, and `designParams` aliases `styles['default']`. -/
def initFigState : FigState :=
  { defaultStyle := defaultDesign,
    publication :=
      { defaultDesign with
        rayColors := ["0.4", "0.2", "0.6"], imageColor := "0.3", objectColor := "0.1" },
    presentation := defaultDesign,
    active := StyleName.defaultStyle }

/-- The stored dictionary for a style key. -/
def FigState.styleParams (s : FigState) : StyleName → DesignParams
  | StyleName.defaultStyle => s.defaultStyle
  | StyleName.publication => s.publication
  | StyleName.presentation => s.presentation

/-- Replace the stored dictionary for a style key. -/
def FigState.setStyleParams (s : FigState) : StyleName → DesignParams → FigState
  | StyleName.defaultStyle, d => { s with defaultStyle := d }
  | StyleName.publication, d => { s with publication := d }
  | StyleName.presentation, d => { s with presentation := d }

/-- The dictionary `self.designParams` currently aliases. -/
def activeParams (s : FigState) : DesignParams :=
  s.styleParams s.active

/-- An item write `self.designParams[key] = value`: through the alias it
mutates the stored dictionary of the active style. -/
def updateActive (s : FigState) (f : DesignParams → DesignParams) : FigState :=
  s.setStyleParams s.active (f (activeParams s))

/-- Key lookup in `self.styles` for the string passed to `Figure.design`. -/
def lookupStyle : String → Option StyleName
  | "default" => some StyleName.defaultStyle
  | "publication" => some StyleName.publication
  | "presentation" => some StyleName.presentation
  | _ => none

/-- Result of a `Figure.design` call: the figure state after the call and the
error raised, if any (Python leaves the object in its partially mutated state
when an exception is raised). -/
structure DesignOutcome where
  state : FigState
  error : Option String
deriving DecidableEq

/-- Tail of the `Figure.design` override loop after the `rayColors` key:
`onlyAxialRay`, `imageColor` and `objectColor` writes never fail. -/
def designRest (s : FigState) (onlyAxialRay : Option Bool)
    (imageColor objectColor : Option String) : DesignOutcome :=
  let s1 := match onlyAxialRay with
    | some b => updateActive s fun d => { d with onlyAxialRay := b }
    | none => s
  let s2 := match imageColor with
    | some c => updateActive s1 fun d => { d with imageColor := c }
    | none => s1
  let s3 := match objectColor with
    | some c => updateActive s2 fun d => { d with objectColor := c }
    | none => s2
  { state := s3, error := none }

/-- Override loop of `Figure.design` (figureManager.py, lines 58-65).  The
`newDesignParams` dictionary iterates in insertion order, so `rayColors` is
checked first: a list whose length is not 3 raises the assertion before any
write. -/
def designOverrides (s : FigState) (rayColors : Option (List String))
    (onlyAxialRay : Option Bool) (imageColor objectColor : Option String) :
    DesignOutcome :=
  match rayColors with
  | some cs =>
    if cs.length = 3 then
      designRest (updateActive s fun d => { d with rayColors := cs })
        onlyAxialRay imageColor objectColor
    else { state := s, error := some "rayColors has to be a list with 3 elements." }
  | none => designRest s onlyAxialRay imageColor objectColor

/-- Embedding of `Figure.design` (figureManager.py, lines 32-65): an unknown
style name raises before anything else; a known style re-points
`self.designParams` at the stored dictionary, then the overrides are applied
through the alias. -/
def design (s : FigState) (style : Option String) (rayColors : Option (List String))
    (onlyAxialRay : Option Bool) (imageColor objectColor : Option String) :
    DesignOutcome :=
  match style with
  | some st =>
    match lookupStyle st with
    | some name =>
      designOverrides { s with active := name } rayColors onlyAxialRay imageColor objectColor
    | none => { state := s, error := some "Available styles are : dict_keys" }
  | none => designOverrides s rayColors onlyAxialRay imageColor objectColor

/-- Condition under which `Figure.design` raises on its `style` argument: a
style name that is not a key of `self.styles`. -/
def styleErr (style : Option String) : Bool :=
  match style with
  | some st => (lookupStyle st).isNone
  | none => false

/-- Condition under which the `rayColors` assertion of `Figure.design` fails:
a colour list whose length is not 3. -/
def rayColorsErr (rayColors : Option (List String)) : Bool :=
  match rayColors with
  | some cs => decide (cs.length ≠ 3)
  | none => false

/-- State of the figure after only the style-selection step of
`Figure.design` (the partial mutation left behind when a later override
raises). -/
def applyStyleOnly (s : FigState) (style : Option String) : FigState :=
  match style with
  | some st =>
    match lookupStyle st with
    | some name => { s with active := name }
    | none => s
  | none => s

/-! ## Display initialization (Figure.initializeDisplay) -/

/-- The display-mode flags of `designParams` read and written by
`Figure.initializeDisplay`. -/
structure DisplayFlags where
  limitObjectToFieldOfView : Bool
  onlyPrincipalAndAxialRays : Bool
deriving DecidableEq

/-- Read-only queries of the optical path used by `Figure.initializeDisplay`
(`none` encodes the Python float `+inf` for `fieldOfView` and `imageSize`, and
a `None` aperture stop position or principal ray becomes a false flag). -/
structure PathQueries where
  fieldOfView : Option ℚ
  imageSize : Option ℚ
  objectHeight : ℚ
  hasApertureStop : Bool
  hasPrincipalRay : Bool
deriving DecidableEq

/-- Observable outcome of `Figure.initializeDisplay`: the flags after the
call, the path's object height after the call, and the warnings surfaced (the
informational note label only formats these same values and is not modelled). -/
structure InitDisplayResult where
  flags : DisplayFlags
  objectHeight : ℚ
  warnings : List String
deriving DecidableEq

/-- Warning text for an infinite field of view (figureManager.py, line 78). -/
def warnInfiniteFOV : String :=
  "Infinite field of view: cannot use limitObjectToFieldOfView=True."

/-- Warning text for an infinite image size (figureManager.py, line 85). -/
def warnInfiniteImage : String :=
  "Infinite image size: cannot use limitObjectToFieldOfView=True."

/-- Warning text for a missing aperture stop or principal ray
(figureManager.py, lines 94-95). -/
def warnNoStop : String :=
  "No aperture stop in system: cannot use onlyPrincipalAndAxialRays=True since they are not defined."

/-- Embedding of `Figure.initializeDisplay` (figureManager.py, lines 67-101).
With the limit flag set, a finite field of view overwrites the object height;
an infinite one leaves it and turns the flag off with a warning; the image
size is then checked independently.  A missing aperture stop or principal ray
turns the principal-and-axial flag off with a warning. -/
def initializeDisplay (d : DisplayFlags) (p : PathQueries) : InitDisplayResult :=
  let step1 : Bool × ℚ × List String :=
    if d.limitObjectToFieldOfView then
      let fovStep : Bool × ℚ × List String :=
        match p.fieldOfView with
        | some fov => (d.limitObjectToFieldOfView, fov, [])
        | none => (false, p.objectHeight, [warnInfiniteFOV])
      match p.imageSize with
      | some _ => fovStep
      | none => (false, fovStep.2.1, fovStep.2.2 ++ [warnInfiniteImage])
    else (d.limitObjectToFieldOfView, p.objectHeight, [])
  let step2 : Bool × List String :=
    if d.onlyPrincipalAndAxialRays then
      if p.hasApertureStop = false ∨ p.hasPrincipalRay = false then
        (false, [warnNoStop])
      else (d.onlyPrincipalAndAxialRays, [])
    else (d.onlyPrincipalAndAxialRays, [])
  { flags := { limitObjectToFieldOfView := step1.1,
               onlyPrincipalAndAxialRays := step2.1 },
    objectHeight := step1.2.1,
    warnings := step1.2.2 ++ step2.2 }

/-! ## Label overlap resolution (MplFigure.fixLabelOverlaps and helpers) -/

/-- A rendered text label as seen by the overlap resolver: its current
bounding box in data units (`x0 ≤ x1`, `y0 ≤ y1` for well-formed boxes) and
whether `isRenderedOn` reports it inside the current display.  Translating the
label translates its bounding box by the same amount. -/
structure MplLabel where
  x0 : ℚ
  x1 : ℚ
  y0 : ℚ
  y1 : ℚ
  rendered : Bool
deriving DecidableEq

/-- An axis-aligned bounding box, as returned by `label.boundingBox`. -/
structure BBox where
  x0 : ℚ
  x1 : ℚ
  y0 : ℚ
  y1 : ℚ
deriving DecidableEq

/-- Placeholder box for out-of-range list indexing (never reached on the
index sets produced by `pairsBelow`). -/
def bboxZero : BBox := { x0 := 0, x1 := 0, y0 := 0, y1 := 0 }

/-- Placeholder label for out-of-range list indexing. -/
def labelZero : MplLabel := { x0 := 0, x1 := 0, y0 := 0, y1 := 0, rendered := false }

/-- Current bounding box of a label (`label.boundingBox(axes, figure)`). -/
def boundingBox (l : MplLabel) : BBox :=
  { x0 := l.x0, x1 := l.x1, y0 := l.y0, y1 := l.y1 }

/-- Horizontal translation `label.translate(dx)`. -/
def mplTranslate (l : MplLabel) (dx : ℚ) : MplLabel :=
  { l with x0 := l.x0 + dx, x1 := l.x1 + dx }

/-- Bounding-box overlap test of the rendering backend (`Bbox.overlaps`):
extents are normalised and the comparison is inclusive. -/
def bboxOverlaps (a b : BBox) : Bool :=
  let ax1 := if a.x0 ≤ a.x1 then a.x0 else a.x1
  let ax2 := if a.x0 ≤ a.x1 then a.x1 else a.x0
  let ay1 := if a.y0 ≤ a.y1 then a.y0 else a.y1
  let ay2 := if a.y0 ≤ a.y1 then a.y1 else a.y0
  let bx1 := if b.x0 ≤ b.x1 then b.x0 else b.x1
  let bx2 := if b.x0 ≤ b.x1 then b.x1 else b.x0
  let by1 := if b.y0 ≤ b.y1 then b.y0 else b.y1
  let by2 := if b.y0 ≤ b.y1 then b.y1 else b.y0
  decide (ax1 ≤ bx2) && decide (bx1 ≤ ax2) && decide (ay1 ≤ by2) && decide (by1 ≤ ay2)

/-- Embedding of `MplFigure.translateLabel` (figureManager.py, lines 517-525):
translate the label, then clamp against the axis limits using the bounding box
`bbox` that was computed before the move (within one resolution pass this is
the box snapshot taken at the start of the pass, not the current box). -/
def translateLabel (xMin xMax : ℚ) (l : MplLabel) (bbox : BBox) (dx : ℚ) : MplLabel :=
  let l1 := mplTranslate l dx
  if bbox.x0 + dx < xMin then mplTranslate l1 (xMin - (bbox.x0 + dx))
  else if bbox.x1 + dx > xMax then mplTranslate l1 (xMax - (bbox.x1 + dx))
  else l1

/-- Apply a function at one index of a list, like an item mutation through a
list of object references. -/
def modifyIdx : List MplLabel → ℕ → (MplLabel → MplLabel) → List MplLabel
  | [], _, _ => []
  | l :: ls, 0, f => f l :: ls
  | l :: ls, n + 1, f => l :: modifyIdx ls n f

/-- Index pairs visited by `itertools.combinations(range(n), 2)`, in order. -/
def pairsBelow (n : ℕ) : List (ℕ × ℕ) :=
  (List.range n).flatMap fun a => (List.range (n - a - 1)).map fun k => (a, a + 1 + k)

/-- Body of the pair loop of `MplFigure.fixLabelOverlaps` (figureManager.py,
lines 500-511): `boxes` is the snapshot taken at the start of the pass; on
overlap both labels of the pair are moved apart by half the required spacing
and clamped through `translateLabel` against their snapshot boxes. -/
def passStep (xMin xMax : ℚ) (boxes : List BBox) (st : List MplLabel × Bool)
    (ab : ℕ × ℕ) : List MplLabel × Bool :=
  let boxA := boxes.getD ab.1 bboxZero
  let boxB := boxes.getD ab.2 bboxZero
  if bboxOverlaps boxA boxB then
    let requiredSpacing := if boxB.x1 > boxA.x1 then boxA.x1 - boxB.x0 else boxA.x0 - boxB.x1
    let moved := modifyIdx st.1 ab.1 fun l => translateLabel xMin xMax l boxA (-(requiredSpacing / 2))
    let moved2 := modifyIdx moved ab.2 fun l => translateLabel xMin xMax l boxB (requiredSpacing / 2)
    (moved2, false)
  else st

/-- One pass of the `while` loop of `MplFigure.fixLabelOverlaps`: snapshot the
boxes, visit every index pair, and report whether no overlap was found. -/
def labelPass (xMin xMax : ℚ) (labels : List MplLabel) : List MplLabel × Bool :=
  (pairsBelow labels.length).foldl (passStep xMin xMax (labels.map boundingBox))
    (labels, true)

/-- The `while i < maxIteration` loop of `MplFigure.fixLabelOverlaps`: run up
to the remaining number of passes, stopping early after a pass that found no
overlap. -/
def fixLoop (xMin xMax : ℚ) : ℕ → List MplLabel → List MplLabel
  | 0, st => st
  | n + 1, st =>
    let p := labelPass xMin xMax st
    if p.2 then p.1 else fixLoop xMin xMax n p.1

/-- Merge the mutated rendered labels back into the full label list (the
Python list holds references, so mutations of the filtered sublist are visible
in the original list). -/
def mergeRendered : List MplLabel → List MplLabel → List MplLabel
  | [], _ => []
  | l :: ls, news =>
    if l.rendered then
      match news with
      | [] => l :: mergeRendered ls []
      | n :: ns => n :: mergeRendered ls ns
    else l :: mergeRendered ls news

/-- Embedding of `MplFigure.fixLabelOverlaps` with its default
`maxIteration = 5` (figureManager.py, lines 490-515), over the full label list
(`getRenderedLabels` keeps the labels rendered inside the current display, in
list order).  With fewer than two rendered labels the method returns at once. -/
def fixLabelOverlaps (xMin xMax : ℚ) (allLabels : List MplLabel) : List MplLabel :=
  let rendered := allLabels.filter fun l => l.rendered
  if rendered.length < 2 then allLabels
  else mergeRendered allLabels (fixLoop xMin xMax 5 rendered)

/-! ## Theorems for the claims -/

/-- C10: when fewer than two labels are rendered inside the current viewport,
`fixLabelOverlaps` returns immediately and every label is left exactly as it
was. -/
theorem claim_C10_few_labels_untouched (xMin xMax : ℚ) (allLabels : List MplLabel)
    (h : (allLabels.filter fun l => l.rendered).length < 2) :
    fixLabelOverlaps xMin xMax allLabels = allLabels := by
  unfold fixLabelOverlaps
  simp [h]

/-- Witness for C10 at a concrete single-label input. -/
theorem claim_C10_witness :
    ((([⟨0, 1, 0, 1, true⟩, ⟨2, 3, 0, 1, false⟩] : List MplLabel).filter
        fun l => l.rendered).length < 2)
    ∧ fixLabelOverlaps 0 10 [⟨0, 1, 0, 1, true⟩, ⟨2, 3, 0, 1, false⟩]
        = [⟨0, 1, 0, 1, true⟩, ⟨2, 3, 0, 1, false⟩] :=
  ⟨by decide, claim_C10_few_labels_untouched 0 10 _ (by decide)⟩

/-- C4 counterexample: with axis limits `[0, 20]`, a pair of overlapping
rendered labels where the second box is wider than the axis range ends, after
`fixLabelOverlaps` completes all five passes, with its bounding box past the
left limit (`x0 = -3 < 0`), refuting the claim that no label box ever exceeds
the current x-axis limits. -/
theorem claim_C4_counterexample :
    (fixLabelOverlaps 0 20 [⟨0, 2, 0, 1, true⟩, ⟨1, 24, 0, 1, true⟩]).getD 1 labelZero
      = ⟨-3, 20, 0, 1, true⟩
    ∧ ((fixLabelOverlaps 0 20 [⟨0, 2, 0, 1, true⟩, ⟨1, 24, 0, 1, true⟩]).getD 1
        labelZero).x0 < 0 := by
  have e1 : labelPass 0 20 [⟨0, 2, 0, 1, true⟩, ⟨1, 24, 0, 1, true⟩]
      = ([⟨0, 2, 0, 1, true⟩, ⟨-3, 20, 0, 1, true⟩], false) := by
    norm_num [labelPass, pairsBelow, List.range_succ, passStep, bboxOverlaps, boundingBox,
      translateLabel, mplTranslate, modifyIdx, List.getD, List.get?, Option.getD]
  have e2 : labelPass 0 20 [⟨0, 2, 0, 1, true⟩, ⟨-3, 20, 0, 1, true⟩]
      = ([⟨0, 2, 0, 1, true⟩, ⟨0, 23, 0, 1, true⟩], false) := by
    norm_num [labelPass, pairsBelow, List.range_succ, passStep, bboxOverlaps, boundingBox,
      translateLabel, mplTranslate, modifyIdx, List.getD, List.get?, Option.getD]
  have e3 : labelPass 0 20 [⟨0, 2, 0, 1, true⟩, ⟨0, 23, 0, 1, true⟩]
      = ([⟨0, 2, 0, 1, true⟩, ⟨-3, 20, 0, 1, true⟩], false) := by
    norm_num [labelPass, pairsBelow, List.range_succ, passStep, bboxOverlaps, boundingBox,
      translateLabel, mplTranslate, modifyIdx, List.getD, List.get?, Option.getD]
  have emain : fixLabelOverlaps 0 20 [⟨0, 2, 0, 1, true⟩, ⟨1, 24, 0, 1, true⟩]
      = [⟨0, 2, 0, 1, true⟩, ⟨-3, 20, 0, 1, true⟩] := by
    simp [fixLabelOverlaps, fixLoop, e1, e2, e3, mergeRendered]
  rw [emain]
  norm_num [List.getD, List.get?, Option.getD]

/-- C4 (amended): each single `translateLabel` call made with the label's
current bounding box clamps exactly to the limit it would cross, and a label
whose box is no wider than the axis range ends the call inside the limits;
the global claim fails because the clamp is one-sided (and applied against the
pass-start snapshot), so a box wider than the axis range ends past the
opposite limit. -/
theorem claim_C4_translate_clamps (xMin xMax dx : ℚ) (l : MplLabel)
    (hw : l.x1 - l.x0 ≤ xMax - xMin) :
    (l.x0 + dx < xMin →
      (translateLabel xMin xMax l (boundingBox l) dx).x0 = xMin)
    ∧ (xMin ≤ l.x0 + dx → xMax < l.x1 + dx →
      (translateLabel xMin xMax l (boundingBox l) dx).x1 = xMax)
    ∧ xMin ≤ (translateLabel xMin xMax l (boundingBox l) dx).x0
    ∧ (translateLabel xMin xMax l (boundingBox l) dx).x1 ≤ xMax := by
  unfold translateLabel boundingBox mplTranslate
  split_ifs with h1 h2 <;> refine ⟨fun ha => ?_, fun hb hc => ?_, ?_, ?_⟩ <;>
    dsimp only <;> linarith

/-- Witness for C4's amended theorem at a concrete input. -/
theorem claim_C4_witness :
    ((1 : ℚ) - 0 ≤ 10 - 0)
    ∧ (translateLabel 0 10 ⟨0, 1, 0, 1, true⟩ (boundingBox ⟨0, 1, 0, 1, true⟩) (-5)).x0
        = 0 :=
  ⟨by norm_num,
    (claim_C4_translate_clamps 0 10 (-5) ⟨0, 1, 0, 1, true⟩ (by norm_num)).1 (by norm_num)⟩

/-- Membership in the index-pair list of a pass is exactly an ordered
in-range index pair. -/
theorem pairsBelow_mem {n a b : ℕ} : (a, b) ∈ pairsBelow n ↔ a < b ∧ b < n := by
  simp only [pairsBelow, List.mem_flatMap, List.mem_map, List.mem_range, Prod.mk.injEq]
  constructor
  · rintro ⟨x, hx, k, hk, hxa, hkb⟩
    omega
  · rintro ⟨hab, hbn⟩
    exact ⟨a, by omega, b - a - 1, by omega, rfl, by omega⟩

/-- A pass whose pair tests all fail leaves the labels untouched and the
no-overlap flag set. -/
theorem foldl_passStep_id (xMin xMax : ℚ) (boxes : List BBox) (ps : List (ℕ × ℕ))
    (init : List MplLabel)
    (h : ∀ ab ∈ ps,
      bboxOverlaps (boxes.getD ab.1 bboxZero) (boxes.getD ab.2 bboxZero) = false) :
    ps.foldl (passStep xMin xMax boxes) (init, true) = (init, true) := by
  induction ps with
  | nil => rfl
  | cons ab ps ih =>
    have hab := h ab (by simp)
    have hstep : passStep xMin xMax boxes (init, true) ab = (init, true) := by
      unfold passStep
      simp only [hab]
      simp
    rw [List.foldl_cons, hstep]
    exact ih fun x hx => h x (by simp [hx])

/-- Merging the untouched rendered sublist back reproduces the original list. -/
theorem mergeRendered_filter (l : List MplLabel) :
    mergeRendered l (l.filter fun x => x.rendered) = l := by
  induction l with
  | nil => rfl
  | cons a l ih =>
    by_cases ha : a.rendered = true
    · simp [List.filter_cons, ha, mergeRendered, ih]
    · simp [List.filter_cons, ha, mergeRendered, ih]

/-- Indexing a mapped bounding-box list is the bounding box of the indexed
label. -/
theorem getD_map_boundingBox (l : List MplLabel) (i : ℕ) (h : i < l.length) :
    (l.map boundingBox).getD i bboxZero = boundingBox (l.getD i labelZero) := by
  induction l generalizing i with
  | nil => simp at h
  | cons a l ih =>
    cases i with
    | zero => rfl
    | succ i => exact ih i (by simpa using h)

/-- C5: on a label set whose rendered labels have pairwise non-overlapping
bounding boxes, the first pass of `fixLabelOverlaps` finds no overlap, no
translation is applied, and the label list is returned exactly as it was
(idempotence on non-overlapping sets). -/
theorem claim_C5_no_overlap_identity (xMin xMax : ℚ) (allLabels : List MplLabel)
    (h : ∀ i j : ℕ, i < j → j < (allLabels.filter fun l => l.rendered).length →
      bboxOverlaps
        (boundingBox ((allLabels.filter fun l => l.rendered).getD i labelZero))
        (boundingBox ((allLabels.filter fun l => l.rendered).getD j labelZero)) = false) :
    fixLabelOverlaps xMin xMax allLabels = allLabels := by
  unfold fixLabelOverlaps
  by_cases hlen : (allLabels.filter fun l => l.rendered).length < 2
  · simp [hlen]
  · have hpass : labelPass xMin xMax (allLabels.filter fun l => l.rendered)
        = (allLabels.filter fun l => l.rendered, true) := by
      unfold labelPass
      apply foldl_passStep_id
      intro ab hab
      obtain ⟨a, b⟩ := ab
      obtain ⟨h1, h2⟩ := pairsBelow_mem.mp hab
      rw [getD_map_boundingBox _ _ (lt_trans h1 h2), getD_map_boundingBox _ _ h2]
      exact h a b h1 h2
    have hloop : fixLoop xMin xMax 5 (allLabels.filter fun l => l.rendered)
        = allLabels.filter fun l => l.rendered := by
      simp [fixLoop, hpass]
    simp [hlen, hloop, mergeRendered_filter]

/-- Witness for C5 at a concrete pair of disjoint rendered labels. -/
theorem claim_C5_witness :
    fixLabelOverlaps 0 10 [⟨0, 1, 0, 1, true⟩, ⟨5, 6, 0, 1, true⟩]
      = [⟨0, 1, 0, 1, true⟩, ⟨5, 6, 0, 1, true⟩] :=
  claim_C5_no_overlap_identity 0 10 _ (by
    intro i j hij hj
    have hj2 : j < 2 := by simpa [List.filter] using hj
    interval_cases j <;> interval_cases i <;>
      norm_num [bboxOverlaps, boundingBox, List.getD, List.get?, Option.getD, List.filter])

/-- With `removeBlockedRaysCompletely` set, a fully blocked nonempty tail
aborts the rearrangement. -/
theorem rearrangeAux_allBlocked_remove (s : List TracedRay)
    (hs : ∀ r ∈ s, r.isBlocked = true) :
    rearrangeAux true s = if s.isEmpty then some ([], []) else none := by
  cases s with
  | nil => rfl
  | cons r rs =>
    have hr := hs r (by simp)
    simp [rearrangeAux, hr]

/-- Without `removeBlockedRaysCompletely`, a fully blocked tail contributes
nothing. -/
theorem rearrangeAux_allBlocked_keep (s : List TracedRay)
    (hs : ∀ r ∈ s, r.isBlocked = true) :
    rearrangeAux false s = some ([], []) := by
  induction s with
  | nil => rfl
  | cons r rs ih =>
    have hr := hs r (by simp)
    simp only [rearrangeAux, hr, Bool.true_eq_false, if_false, if_neg]
    simp only [Bool.false_eq_true, if_false]
    exact ih fun x hx => hs x (by simp [hx])

/-- An unblocked prefix passes through the rearrangement unchanged. -/
theorem rearrangeAux_unblockedPrefix (remove : Bool) (p s : List TracedRay)
    (hp : ∀ r ∈ p, r.isBlocked = false) :
    rearrangeAux remove (p ++ s)
      = (rearrangeAux remove s).map
          fun xy => (p.map (·.z) ++ xy.1, p.map (·.y) ++ xy.2) := by
  induction p with
  | nil =>
    cases h : rearrangeAux remove s <;> simp [h]
  | cons r p ih =>
    have hr := hp r (by simp)
    rw [List.cons_append]
    simp only [rearrangeAux, hr, if_pos]
    rw [ih fun x hx => hp x (by simp [hx])]
    cases h : rearrangeAux remove s <;> simp [h]

/-- C2: for a traced ray path (an unblocked prefix `p` followed by its blocked
tail `s`): a ray whose first sample is blocked (empty `p`) produces no line;
with `removeBlockedRaysCompletely` any ray with a blocked sample produces no
line; without it, the plotted points are exactly the unblocked prefix, so the
line's last point is the last sample before the first blocked one. -/
theorem claim_C2_blocked_rays (remove : Bool) (colors : List String) (hh lw : ℚ)
    (p s : List TracedRay) (hp : ∀ r ∈ p, r.isBlocked = false)
    (hs : ∀ r ∈ s, r.isBlocked = true) :
    (p = [] → lineOfRayTrace remove colors hh lw (p ++ s) = none)
    ∧ (remove = true → s ≠ [] → lineOfRayTrace remove colors hh lw (p ++ s) = none)
    ∧ (remove = false →
        rearrangeRayTraceForPlotting false (p ++ s) = (p.map (·.z), p.map (·.y)))
    ∧ (remove = false →
        (rearrangeRayTraceForPlotting false (p ++ s)).2.getLast?
          = (p.getLast?).map (·.y)) := by
  have hkeep : rearrangeRayTraceForPlotting false (p ++ s)
      = (p.map (·.z), p.map (·.y)) := by
    unfold rearrangeRayTraceForPlotting
    rw [rearrangeAux_unblockedPrefix false p s hp, rearrangeAux_allBlocked_keep s hs]
    simp
  refine ⟨?_, ?_, fun _ => hkeep, fun _ => by rw [hkeep]; simp [List.getLast?_map]⟩
  · rintro rfl
    have hempty : rearrangeRayTraceForPlotting remove s = ([], []) := by
      cases remove
      · unfold rearrangeRayTraceForPlotting
        rw [rearrangeAux_allBlocked_keep s hs]
        rfl
      · unfold rearrangeRayTraceForPlotting
        rw [rearrangeAux_allBlocked_remove s hs]
        cases s <;> simp
    simp [lineOfRayTrace, hempty]
  · rintro rfl hsne
    have hempty : rearrangeRayTraceForPlotting true (p ++ s) = ([], []) := by
      unfold rearrangeRayTraceForPlotting
      rw [rearrangeAux_unblockedPrefix true p s hp, rearrangeAux_allBlocked_remove s hs]
      cases s with
      | nil => exact absurd rfl hsne
      | cons r rs => simp
    simp [lineOfRayTrace, hempty]

/-- Witness for C2 at a concrete two-sample trace with a blocked third
sample. -/
theorem claim_C2_witness :
    rearrangeRayTraceForPlotting false
        ([⟨0, 1, false⟩, ⟨1, 2, false⟩] ++ [⟨2, 3, true⟩])
      = ([0, 1], [1, 2]) :=
  ((claim_C2_blocked_rays false ["b", "r", "g"] 5 1 [⟨0, 1, false⟩, ⟨1, 2, false⟩]
      [⟨2, 3, true⟩] (by simp) (by simp)).2.2.1) rfl

/-- C3: the colour-bucket index of `rayTraceLines` equals the clamped floor
`max 0 (min ⌊(startY - (-halfHeight - binWidth/2)) / binWidth⌋ (n-1))` with
`binWidth = 2*halfHeight/(n-1)` (the Python `int()` truncation and the
asymmetric clamp agree with the floor-and-clamp form), the index always lies
in `[0, n-1]`, and the line built for a trace starting with an unblocked
sample is coloured by that index of its starting height. -/
theorem claim_C3_color_bucket (n : ℕ) (h y : ℚ) (hn : 2 ≤ n) ( _hh : h ≠ 0) :
    ((colorIndexOf n h y : ℤ)
      = max 0 (min (⌊(y - (-h - (2 * h / ((n : ℚ) - 1)) / 2)) / (2 * h / ((n : ℚ) - 1))⌋)
          ((n : ℤ) - 1)))
    ∧ colorIndexOf n h y ≤ n - 1
    ∧ (∀ (remove : Bool) (colors : List String) (lw : ℚ) (r : TracedRay)
        (rs : List TracedRay) ( ln : Line), colors.length = n → r.isBlocked = false →
        lineOfRayTrace remove colors h lw (r :: rs) = some ln →
        ln.color = colors.getD (colorIndexOf n h r.y) "") := by
  set q : ℚ := (y - (-h - (2 * h / ((n : ℚ) - 1)) / 2)) / (2 * h / ((n : ℚ) - 1)) with hq
  have hmain : (colorIndexOf n h y : ℤ) = max 0 (min ⌊q⌋ ((n : ℤ) - 1)) := by
    unfold colorIndexOf pyTrunc
    dsimp only
    rw [← hq]
    by_cases hq0 : 0 ≤ q
    · have hf : 0 ≤ ⌊q⌋ := Int.floor_nonneg.mpr hq0
      rw [if_pos hq0]
      split_ifs with h1 h2
      · omega
      · have : ((n - 1 : ℕ) : ℤ) = (n : ℤ) - 1 := by omega
        rw [this]
        omega
      · rw [Int.toNat_of_nonneg hf]
        omega
    · have hql : q < 0 := not_le.mp hq0
      have hc : ⌈q⌉ ≤ 0 := Int.ceil_le.mpr (by exact_mod_cast hql.le)
      have hf : ⌊q⌋ < 0 := by
        by_contra hcon
        exact hq0 (Int.floor_nonneg.mp (not_lt.mp hcon))
      rw [if_neg hq0]
      split_ifs with h1 h2
      · omega
      · omega
      · have : ⌈q⌉ = 0 := le_antisymm hc (not_lt.mp h1)
        rw [this]
        omega
  refine ⟨hmain, ?_, ?_⟩
  · have h0 : (0 : ℤ) ≤ max 0 (min ⌊q⌋ ((n : ℤ) - 1)) := le_max_left 0 _
    have h1 : max 0 (min ⌊q⌋ ((n : ℤ) - 1)) ≤ (n : ℤ) - 1 := by
      apply max_le <;> omega
    omega
  · intro remove colors lw r rs ln hlen hr hline
    unfold lineOfRayTrace rearrangeRayTraceForPlotting at hline
    rw [show rearrangeAux remove (r :: rs)
          = match rearrangeAux remove rs with
            | none => none
            | some (x, yy) => some (r.z :: x, r.y :: yy) by
        simp [rearrangeAux, hr]] at hline
    cases haux : rearrangeAux remove rs with
    | none => rw [haux] at hline; simp at hline
    | some xy =>
      rw [haux] at hline
      obtain ⟨x, yy⟩ := xy
      simp only [Option.getD_some] at hline
      simp only [Option.some.injEq] at hline
      rw [← hline, hlen]

/-- Witness for C3 at the concrete bucket computation
`colorIndexOf 3 5 7 = 2`. -/
theorem claim_C3_witness :
    2 ≤ 3 ∧ (5 : ℚ) ≠ 0 ∧ colorIndexOf 3 5 7 ≤ 3 - 1 :=
  ⟨by norm_num, by norm_num,
    (claim_C3_color_bucket 3 5 7 (by norm_num) (by norm_num)).2.1⟩

/-- C9: with the limit-object-to-field-of-view flag requested, an infinite
field of view forces the flag off with a warning while the nominal object
height is kept; the image-size check runs independently and an infinite image
size likewise forces the flag off with a warning (after a finite field of
view has overwritten the object height); both warnings surface together when
both are infinite; and a missing aperture stop or principal ray forces the
principal-and-axial flag off with its warning.  `initializeDisplay` is total,
so every degraded case still produces a layout. -/
theorem claim_C9_degraded_modes (d : DisplayFlags) (p : PathQueries)
    (hl : d.limitObjectToFieldOfView = true) :
    (p.fieldOfView = none →
      (initializeDisplay d p).flags.limitObjectToFieldOfView = false
      ∧ (initializeDisplay d p).objectHeight = p.objectHeight
      ∧ warnInfiniteFOV ∈ (initializeDisplay d p).warnings)
    ∧ (∀ f, p.fieldOfView = some f → p.imageSize = none →
      (initializeDisplay d p).flags.limitObjectToFieldOfView = false
      ∧ (initializeDisplay d p).objectHeight = f
      ∧ warnInfiniteImage ∈ (initializeDisplay d p).warnings)
    ∧ (p.fieldOfView = none → p.imageSize = none →
      warnInfiniteFOV ∈ (initializeDisplay d p).warnings
      ∧ warnInfiniteImage ∈ (initializeDisplay d p).warnings)
    ∧ (d.onlyPrincipalAndAxialRays = true →
      p.hasApertureStop = false ∨ p.hasPrincipalRay = false →
      (initializeDisplay d p).flags.onlyPrincipalAndAxialRays = false
      ∧ warnNoStop ∈ (initializeDisplay d p).warnings) := by
  refine ⟨?_, ?_, ?_, ?_⟩
  · intro hfov
    cases himg : p.imageSize <;>
      simp [initializeDisplay, hl, hfov, himg]
  · intro f hfov himg
    simp [initializeDisplay, hl, hfov, himg]
  · intro hfov himg
    simp [initializeDisplay, hl, hfov, himg]
  · intro hpa hmiss
    have hcond : (p.hasApertureStop = false ∨ p.hasPrincipalRay = false) := hmiss
    cases hfov : p.fieldOfView <;> cases himg : p.imageSize <;>
      simp [initializeDisplay, hl, hpa, hfov, himg, hcond]

/-- Witness for C9 at a concrete path with infinite field of view and image
size and no aperture stop. -/
theorem claim_C9_witness :
    (DisplayFlags.mk true true).limitObjectToFieldOfView = true
    ∧ ((initializeDisplay ⟨true, true⟩ ⟨none, none, 10, false, true⟩).flags.limitObjectToFieldOfView
        = false
      ∧ (initializeDisplay ⟨true, true⟩ ⟨none, none, 10, false, true⟩).objectHeight = 10
      ∧ warnInfiniteFOV
          ∈ (initializeDisplay ⟨true, true⟩ ⟨none, none, 10, false, true⟩).warnings) :=
  ⟨rfl, (claim_C9_degraded_modes ⟨true, true⟩ ⟨none, none, 10, false, true⟩ rfl).1 rfl⟩

/-- One conjugate step never lowers the running display range. -/
theorem conjStep_ge (H L d : ℚ) (pm : ℚ × ℚ) : d ≤ conjStep H L d pm := by
  unfold conjStep
  split_ifs <;> linarith

/-- The conjugate loop never lowers the running display range. -/
theorem foldl_conjStep_ge (H L : ℚ) (l : List (ℚ × ℚ)) (d : ℚ) :
    d ≤ l.foldl (conjStep H L) d := by
  induction l generalizing d with
  | nil => simp
  | cons pm l ih =>
    rw [List.foldl_cons]
    exact le_trans (conjStep_ge H L d pm) (ih _)

/-- After the conjugate loop, the range dominates every in-range conjugate
image height. -/
theorem foldl_conjStep_mem (H L : ℚ) (l : List (ℚ × ℚ)) (d : ℚ) (pm : ℚ × ℚ)
    (hmem : pm ∈ l) (h0 : 0 ≤ pm.1) (h1 : pm.1 ≤ L) :
    H * |pm.2| ≤ l.foldl (conjStep H L) d := by
  induction l generalizing d with
  | nil => simp at hmem
  | cons a l ih =>
    rw [List.foldl_cons]
    rcases List.mem_cons.mp hmem with heq | hmem2
    · have hstep : H * |pm.2| ≤ conjStep H L d a := by
        rw [← heq]
        unfold conjStep
        rw [if_pos ⟨h0, h1⟩]
        split_ifs with hlt
        · exact le_refl _
        · linarith [not_lt.mp hlt]
      exact le_trans hstep (foldl_conjStep_ge H L l _)
    · exact ih _ hmem2

/-- The element-extent step keeps finiteness. -/
theorem extentStep_isSome (d h : Option ℚ) (hd : d.isSome = true)
    (hh : h.isSome = true) : (extentStep d h).isSome = true := by
  unfold extentStep
  cases d with
  | none => simp at hd
  | some c =>
    cases h with
    | none => simp at hh
    | some b => split_ifs <;> simp [qinfDouble]

/-- The element-extent loop keeps finiteness. -/
theorem foldl_extentStep_isSome (l : List (Option ℚ))
    (hl : ∀ h ∈ l, h.isSome = true) (d : Option ℚ) (hd : d.isSome = true) :
    (l.foldl extentStep d).isSome = true := by
  induction l generalizing d with
  | nil => exact hd
  | cons a l ih =>
    rw [List.foldl_cons]
    exact ih (fun x hx => hl x (by simp [hx])) _
      (extentStep_isSome d a hd (hl a (by simp)))

/-- The element-extent step preserves lower bounds. -/
theorem extentStep_atLeast (d h : Option ℚ) (a : ℚ) (hd : qinfAtLeast d a) :
    qinfAtLeast (extentStep d h) a := by
  unfold extentStep
  cases d with
  | none =>
    cases h <;> simp [qinfGT, qinfDouble, qinfAtLeast]
  | some c =>
    cases h with
    | none => simp [qinfGT, qinfDouble, qinfAtLeast]
    | some b =>
      simp only [qinfAtLeast, qinfGT, qinfDouble] at hd ⊢
      split_ifs with hlt
      · simp only [decide_eq_true_eq] at hlt
        simp only [qinfAtLeast]
        linarith
      · simpa [qinfAtLeast] using hd

/-- Processing an element raises the lower bound to twice its half height. -/
theorem extentStep_hit (d : Option ℚ) (a : ℚ) :
    qinfAtLeast (extentStep d (some a)) (2 * a) := by
  unfold extentStep
  cases d with
  | none => simp [qinfGT, qinfDouble, qinfAtLeast]
  | some c =>
    simp only [qinfGT, qinfDouble]
    split_ifs with hlt
    · simp [qinfAtLeast]
    · simp only [decide_eq_true_eq, not_lt] at hlt
      simpa [qinfAtLeast] using hlt

/-- The element-extent loop preserves lower bounds. -/
theorem foldl_extentStep_atLeast (l : List (Option ℚ)) (a : ℚ) (d : Option ℚ)
    (hd : qinfAtLeast d a) : qinfAtLeast (l.foldl extentStep d) a := by
  induction l generalizing d with
  | nil => exact hd
  | cons x l ih =>
    rw [List.foldl_cons]
    exact ih _ (extentStep_atLeast d x a hd)

/-- The element-extent loop dominates twice the half height of every member
element. -/
theorem foldl_extentStep_mem (l : List (Option ℚ)) (a : ℚ)
    (hmem : some a ∈ l) (d : Option ℚ) :
    qinfAtLeast (l.foldl extentStep d) (2 * a) := by
  induction l generalizing d with
  | nil => simp at hmem
  | cons x l ih =>
    rw [List.foldl_cons]
    rcases List.mem_cons.mp hmem with hx | hmem2
    · rw [← hx]
      exact foldl_extentStep_atLeast l _ _ (extentStep_hit d a)
    · exact ih hmem2 _

/-- C1 (amended): the imaging display range is always at least the object
height, and at least `objectHeight * |magnification|` for every intermediate
conjugate whose plane position lies within `[0, L]` (so object height 10 with
an in-range conjugate of magnification -2 yields at least 20); it is strictly
positive whenever the object height is positive, or every element extent is
finite and some element has positive extent.  The original claim fails when an
infinite-extent element coexists with a zero object height. -/
theorem claim_C1_display_range (p : ImagingPath) :
    p.objectHeight ≤ imagingDisplayRange p
    ∧ (∀ pm ∈ p.conjugates, 0 ≤ pm.1 → pm.1 ≤ p.L →
        p.objectHeight * |pm.2| ≤ imagingDisplayRange p)
    ∧ (0 < p.objectHeight ∨
        ((∀ h ∈ p.halfHeights, h.isSome = true) ∧ ∃ a, some a ∈ p.halfHeights ∧ 0 < a) →
        0 < imagingDisplayRange p) := by
  unfold imagingDisplayRange
  rcases hm : maxElementExtent p.halfHeights with _ | v <;> simp only [hm]
  · refine ⟨foldl_conjStep_ge _ _ _ _,
      fun pm hmem h0 h1 => foldl_conjStep_mem _ _ _ _ pm hmem h0 h1, ?_⟩
    rintro (hpos | ⟨hall, a, hmem, _⟩)
    · exact lt_of_lt_of_le hpos (foldl_conjStep_ge _ _ _ _)
    · have hsome : (maxElementExtent p.halfHeights).isSome = true := by
        unfold maxElementExtent
        exact foldl_extentStep_isSome p.halfHeights hall (some 0) rfl
      rw [hm] at hsome
      simp at hsome
  · have hd1H : p.objectHeight ≤ if v ≤ p.objectHeight then p.objectHeight else v := by
      split_ifs with hv
      · exact le_refl _
      · linarith [not_le.mp hv]
    have hd1v : v ≤ if v ≤ p.objectHeight then p.objectHeight else v := by
      split_ifs with hv
      · exact hv
      · exact le_refl _
    refine ⟨le_trans hd1H (foldl_conjStep_ge _ _ _ _),
      fun pm hmem h0 h1 => foldl_conjStep_mem _ _ _ _ pm hmem h0 h1, ?_⟩
    rintro (hpos | ⟨hall, a, hmem, ha⟩)
    · exact lt_of_lt_of_le hpos (le_trans hd1H (foldl_conjStep_ge _ _ _ _))
    · have hat : qinfAtLeast (maxElementExtent p.halfHeights) (2 * a) := by
        unfold maxElementExtent
        exact foldl_extentStep_mem p.halfHeights a hmem (some 0)
      rw [hm] at hat
      simp only [qinfAtLeast] at hat
      have : 0 < v := by linarith
      exact lt_of_lt_of_le this (le_trans hd1v (foldl_conjStep_ge _ _ _ _))

/-- C1 counterexample: a path with one finite positive-extent element, one
infinite-extent element and a zero object height has display range 0, not
strictly positive, refuting the original claim. -/
theorem claim_C1_counterexample :
    some (1 : ℚ) ∈ (ImagingPath.mk [some 1, none] 0 [] 0).halfHeights
    ∧ (0 : ℚ) < 1
    ∧ imagingDisplayRange (ImagingPath.mk [some 1, none] 0 [] 0) = 0 := by
  refine ⟨by simp, by norm_num, ?_⟩
  norm_num [imagingDisplayRange, maxElementExtent, extentStep, qinfGT, qinfDouble]

/-- Witness for C1's amended theorem: object height 10 with an in-range
conjugate of magnification -2 gives a display range of at least 20 and a
positive display range. -/
theorem claim_C1_witness :
    ((1 : ℚ), (-2 : ℚ)) ∈ (ImagingPath.mk [] 10 [(1, -2)] 5).conjugates
    ∧ (10 : ℚ) * |(-2 : ℚ)| ≤ imagingDisplayRange (ImagingPath.mk [] 10 [(1, -2)] 5)
    ∧ 0 < imagingDisplayRange (ImagingPath.mk [] 10 [(1, -2)] 5) :=
  ⟨by simp,
    (claim_C1_display_range (ImagingPath.mk [] 10 [(1, -2)] 5)).2.1 (1, -2) (by simp)
      (by norm_num) (by norm_num),
    (claim_C1_display_range (ImagingPath.mk [] 10 [(1, -2)] 5)).2.2
      (Or.inl (by norm_num))⟩

/-- C7 counterexample: after selecting style publication and overriding
`rayColors`, the STORED named preset `styles['publication']` has been mutated
(it now holds the override), refuting the claim that overrides never modify
the stored named preset: `self.designParams` aliases the stored dictionary. -/
theorem claim_C7_counterexample :
    initFigState.publication.rayColors = ["0.4", "0.2", "0.6"]
    ∧ (design initFigState (some "publication") (some ["k", "k", "k"])
        none none none).state.publication.rayColors = ["k", "k", "k"] := by decide

/-- C7 (amended): selecting a style re-points the active design parameters at
the stored preset wholesale, and the end-to-end override behaviour holds
(publication then `rayColors := [k,k,k]` gives active ray colors `[k,k,k]`
with `imageColor = 0.3` and `objectColor = 0.1` unchanged), but the override
writes through the alias, mutating the stored publication preset itself. -/
theorem claim_C7_amended :
    activeParams (design initFigState (some "publication") none none none none).state
      = initFigState.publication
    ∧ (design initFigState (some "publication") (some ["k", "k", "k"])
        none none none).error = none
    ∧ activeParams (design initFigState (some "publication") (some ["k", "k", "k"])
        none none none).state
      = { initFigState.publication with rayColors := ["k", "k", "k"] }
    ∧ (design initFigState (some "publication") (some ["k", "k", "k"])
        none none none).state.publication
      = { initFigState.publication with rayColors := ["k", "k", "k"] } := by decide

/-- C8 counterexample: calling `design` with a valid style and an invalid
colour list raises, yet the active design parameters are NOT left as they were
before the call: the style switch performed before the failing assertion
persists, refuting the claim. -/
theorem claim_C8_counterexample :
    ((design initFigState (some "publication") (some ["k"]) none none none).error).isSome
      = true
    ∧ activeParams (design initFigState (some "publication") (some ["k"])
        none none none).state
      ≠ activeParams initFigState := by decide

/-- C6 counterexample: two points of interest whose axial positions differ by
0.0004 < 0.0005 but straddle a rounding boundary (0.0003 and 0.0007) are NOT
merged: the aggregation produces two separate points, refuting the claim that
any two points closer than 0.0005 are merged. -/
theorem claim_C6_counterexample :
    (7/10000 : ℚ) - 3/10000 < 5/10000
    ∧ pointsOfInterestAgg [(3/10000, "a"), (7/10000, "b")] 1
        = [{ text := "a", x := 0, y := -1 * (1/2) },
           { text := "b", x := 1/1000, y := -1 * (1/2) }] := by
  have k1 : poiKey (3/10000 : ℚ) = (0, false) := by
    unfold poiKey roundHalfEven
    norm_num
  have k2 : poiKey (7/10000 : ℚ) = (1, false) := by
    unfold poiKey roundHalfEven
    norm_num
  refine ⟨by norm_num, ?_⟩
  unfold pointsOfInterestAgg
  rw [List.foldl_cons, List.foldl_cons, List.foldl_nil]
  norm_num [insertPoi, k1, k2, poiKeyX]

/-- C6 (amended): two points of interest are merged into a single point with
the comma-joined label exactly when their axial positions produce the same
three-decimal key (`poiKey`); positions differing by less than 0.0005 may
still produce distinct keys and stay separate. -/
theorem claim_C6_merge_rule (z1 z2 : ℚ) (l1 l2 : String) (halfHeight : ℚ) :
    pointsOfInterestAgg [(z1, l1), (z2, l2)] halfHeight =
      if poiKey z1 = poiKey z2 then
        [{ text := l1 ++ ", " ++ l2, x := poiKeyX (poiKey z1), y := -halfHeight * (1/2) }]
      else
        [{ text := l1, x := poiKeyX (poiKey z1), y := -halfHeight * (1/2) },
         { text := l2, x := poiKeyX (poiKey z2), y := -halfHeight * (1/2) }] := by
  unfold pointsOfInterestAgg
  rw [List.foldl_cons, List.foldl_cons, List.foldl_nil]
  by_cases h : poiKey z1 = poiKey z2
  · simp [insertPoi, h]
  · have hne : ¬(poiKey z2 = poiKey z1) := fun hc => h hc.symm
    simp [insertPoi, hne, h]

/-- C8 (amended): `design` fails exactly when the style name is unknown or
the given ray-colour list does not have length 3; an unknown style aborts
before any mutation (state unchanged), and a bad colour list aborts before
any field write — but a valid style passed in the same call has already
re-pointed the active parameters, so that switch persists through the abort
(the original claim that the call leaves the active design parameters
untouched fails in that case). -/
theorem claim_C8_design_errors (s : FigState) (style : Option String)
    (rayColors : Option (List String)) (onlyAxialRay : Option Bool)
    (imageColor objectColor : Option String) :
    ((design s style rayColors onlyAxialRay imageColor objectColor).error.isSome
      = (styleErr style || rayColorsErr rayColors))
    ∧ (styleErr style = true →
        (design s style rayColors onlyAxialRay imageColor objectColor).state = s)
    ∧ (styleErr style = false → rayColorsErr rayColors = true →
        (design s style rayColors onlyAxialRay imageColor objectColor).state
          = applyStyleOnly s style) := by
  cases style with
  | none =>
    cases rayColors with
    | none => simp [design, designOverrides, designRest, styleErr, rayColorsErr, applyStyleOnly]
    | some cs =>
      by_cases hlen : cs.length = 3 <;>
        simp [design, designOverrides, designRest, styleErr, rayColorsErr,
          applyStyleOnly, hlen]
  | some st =>
    cases hlk : lookupStyle st with
    | none =>
      simp [design, designOverrides, designRest, styleErr, rayColorsErr, applyStyleOnly, hlk]
    | some name =>
      cases rayColors with
      | none =>
        simp [design, designOverrides, designRest, styleErr, rayColorsErr,
          applyStyleOnly, hlk]
      | some cs =>
        by_cases hlen : cs.length = 3 <;>
          simp [design, designOverrides, designRest, styleErr, rayColorsErr,
            applyStyleOnly, hlk, hlen]

/-- Witness for C8's amended theorem: a valid style with a wrong-length
colour list leaves the style switch applied. -/
theorem claim_C8_witness :
    styleErr (some "publication") = false
    ∧ rayColorsErr (some ["k"]) = true
    ∧ (design initFigState (some "publication") (some ["k"]) none none none).state
        = applyStyleOnly initFigState (some "publication") :=
  ⟨by decide, by decide,
    (claim_C8_design_errors initFigState (some "publication") (some ["k"])
      none none none).2.2 (by decide) (by decide)⟩

end RayTracingFig
